import Mathlib

/-!
Shallow embedding of the quiz-generator repository (quizGenerator/shema.py and
quizGenerator/generator.py).

Modelling conventions:
- A pydantic model is a Lean structure; an optional JSON field is an `Option`
  (`none` models both an absent field and an explicit `null`).
- Parsing a raw JSON value through pydantic is a function on the typed carrier
  returning `Except String`, running the before-validator, the field
  constraints (Literal membership, min_length, ge/le) and the after-validator
  in pydantic order.  JSON-level type errors (a string where an int belongs)
  are outside the typed carrier and not modelled.
- A Python function that raises is a function into `Except String` or
  `Option`; catching an exception is matching on `.error`.
- The external agent call `Runner.run` is an oracle `Nat -> GenOutcome`
  giving the outcome of each attempt; the textual repair prompts built
  between attempts do not influence the oracle in the model (outcomes are
  quantified over), so their string contents are not reproduced.
-/

/-- Model of shema.TrueFalseAnswer. -/
structure TrueFalseAnswer where
  IsTrueOrFlase : Bool
deriving DecidableEq

/-- Model of shema.MultiChoiceItem. -/
structure MultiChoiceItem where
  Text : String
  IsCorrect : Bool
deriving DecidableEq

/-- Model of shema.AnswerSchema: typed carrier for both the raw input dict and
the parsed model. -/
structure AnswerSchema where
  AnswerType : Int
  TrueFalseAnswers : Option TrueFalseAnswer
  MultiChoiceAnswer : Option (List MultiChoiceItem)
deriving DecidableEq

/-- Model of shema.QuestionItem (same carrier for raw and parsed values). -/
structure QuestionItem where
  Question : String
  WaitTimeInSec : Int
  Answer : AnswerSchema
deriving DecidableEq

/-- Model of shema.Quiz: wraps the question array. -/
structure Quiz where
  Questions : List QuestionItem
deriving DecidableEq

/-- Python str.strip with an arbitrary character predicate: drops matching
characters from both ends. -/
def py_strip (p : Char → Bool) (l : List Char) : List Char :=
  ((l.dropWhile p).reverse.dropWhile p).reverse

/-- Python str.strip() without arguments: strips whitespace from both ends. -/
def py_strip_ws (s : String) : String :=
  String.mk (py_strip Char.isWhitespace s.data)

/-- Python str.lower(), character by character. -/
def py_lower (s : String) : String :=
  String.mk (s.data.map Char.toLower)

/-- Python s.strip().lower(), as used on question and option texts. -/
def py_strip_lower (s : String) : String :=
  py_lower (py_strip_ws s)

/-- Model of AnswerSchema._normalize_input (mode=before validator): with
AnswerType 0 the MultiChoiceAnswer key is popped, with AnswerType 1 the
TrueFalseAnswers key is popped, anything else is left alone. -/
def AnswerSchema.normalize_input (d : AnswerSchema) : AnswerSchema :=
  if d.AnswerType = 0 then { d with MultiChoiceAnswer := none }
  else if d.AnswerType = 1 then { d with TrueFalseAnswers := none }
  else d

/-- Loop body of the duplicate-Text scan in AnswerSchema._validate_shape:
walks the options keeping the set of stripped lowercased texts seen so far. -/
def dup_texts_go (seen : List String) : List MultiChoiceItem → Bool
  | [] => false
  | opt :: rest =>
    let t := py_strip_lower opt.Text
    if seen.contains t then true else dup_texts_go (t :: seen) rest

/-- True when the option list has two entries with the same stripped
lowercased Text (the duplicate check in AnswerSchema._validate_shape). -/
def dup_texts (opts : List MultiChoiceItem) : Bool :=
  dup_texts_go [] opts

/-- Field constraint of MultiChoiceItem.Text (min_length=1), checked for every
item of an option list during pydantic field validation. -/
def mc_items_ok : Option (List MultiChoiceItem) → Bool
  | none => true
  | some opts => opts.all (fun it => 1 ≤ it.Text.length)

/-- Model of AnswerSchema._validate_shape (mode=after validator). -/
def AnswerSchema.validate_shape (a : AnswerSchema) : Except String AnswerSchema :=
  if a.AnswerType = 0 then
    match a.TrueFalseAnswers with
    | none => .error "TrueFalseAnswers must be provided when AnswerType=0."
    | some _ => .ok { a with MultiChoiceAnswer := none }
  else
    match a.MultiChoiceAnswer with
    | none => .error "MultiChoiceAnswer must be provided when AnswerType=1."
    | some opts =>
      if opts.isEmpty then
        .error "MultiChoiceAnswer must be provided when AnswerType=1."
      else if ¬ opts.any (fun o => o.IsCorrect) then
        .error "MultiChoiceAnswer must contain at least one IsCorrect=true option."
      else if dup_texts opts then
        .error "MultiChoiceAnswer contains duplicate Text options."
      else
        .ok { a with TrueFalseAnswers := none }

/-- Parsing a raw answer value through the AnswerSchema pydantic model:
before-validator, Literal[0,1] field check, nested MultiChoiceItem field
checks, then the after-validator. -/
def AnswerSchema.parse (data : AnswerSchema) : Except String AnswerSchema :=
  let d := AnswerSchema.normalize_input data
  if ¬ (d.AnswerType = 0 ∨ d.AnswerType = 1) then
    .error "AnswerType: input should be 0 or 1"
  else if ¬ mc_items_ok d.MultiChoiceAnswer then
    .error "MultiChoiceAnswer.Text: string should have at least 1 character"
  else
    AnswerSchema.validate_shape d

/-- Parsing a raw question item through the QuestionItem pydantic model:
Question has min_length=3, WaitTimeInSec is in [1,60], Answer parses. -/
def QuestionItem.parse (item : QuestionItem) : Except String QuestionItem :=
  if item.Question.length < 3 then
    .error "Question: string should have at least 3 characters"
  else if ¬ (1 ≤ item.WaitTimeInSec ∧ item.WaitTimeInSec ≤ 60) then
    .error "WaitTimeInSec: input should be in the range 1 to 60"
  else
    match AnswerSchema.parse item.Answer with
    | .error e => .error e
    | .ok a => .ok { item with Answer := a }

/-- Elementwise pydantic parsing of a question array. -/
def parse_questions : List QuestionItem → Except String (List QuestionItem)
  | [] => .ok []
  | item :: rest =>
    match QuestionItem.parse item with
    | .error e => .error e
    | .ok it =>
      match parse_questions rest with
      | .error e => .error e
      | .ok l => .ok (it :: l)

/-- Parsing a raw question array through the Quiz pydantic model. -/
def Quiz.parse (questions : List QuestionItem) : Except String Quiz :=
  match parse_questions questions with
  | .error e => .error e
  | .ok l => .ok { Questions := l }

/-- Model of generator._sanitize_quiz: forces the payload not matching the
declared AnswerType to None on every question. -/
def sanitize_quiz (quiz : Quiz) : Quiz :=
  { Questions := quiz.Questions.map fun q =>
      if q.Answer.AnswerType = 0 then
        { q with Answer := { q.Answer with MultiChoiceAnswer := none } }
      else
        { q with Answer := { q.Answer with TrueFalseAnswers := none } } }

/-- Loop body of generator._validate_content_rules: walks the questions with
the seen-question set and the has-true-false / has-multi-choice flags. -/
def check_questions : List QuestionItem → List String → Bool → Bool → Except String Unit
  | [], _, has_tf, has_mc =>
    if ¬ has_tf ∨ ¬ has_mc then
      .error "Quiz must include both true/false and multiple-choice questions."
    else .ok ()
  | qi :: rest, seen_q, has_tf, has_mc =>
    let qtxt := py_strip_lower qi.Question
    if seen_q.contains qtxt then .error "Duplicate questions detected."
    else if qi.Answer.AnswerType = 0 then
      if qi.Answer.TrueFalseAnswers.isNone then
        .error "AnswerType=0 must have TrueFalseAnswers."
      else if qi.Answer.MultiChoiceAnswer.isSome then
        .error "AnswerType=0 must not have MultiChoiceAnswer."
      else check_questions rest (qtxt :: seen_q) true has_mc
    else
      match qi.Answer.MultiChoiceAnswer with
      | none => .error "AnswerType=1 must have exactly 4 multi choice options."
      | some opts =>
        if opts.isEmpty ∨ opts.length ≠ 4 then
          .error "AnswerType=1 must have exactly 4 multi choice options."
        else if (opts.filter (fun o => o.IsCorrect)).length ≠ 1 then
          .error "AnswerType=1 must have exactly one correct option."
        else if qi.Answer.TrueFalseAnswers.isSome then
          .error "AnswerType=1 must not have TrueFalseAnswers."
        else check_questions rest (qtxt :: seen_q) has_tf true

/-- Model of generator._validate_content_rules. -/
def validate_content_rules (quiz : Quiz) (min_questions : Nat) : Except String Unit :=
  if quiz.Questions.length < min_questions then
    .error ("Too few questions: " ++ toString quiz.Questions.length ++ " < " ++ toString min_questions)
  else check_questions quiz.Questions [] false false

/-- Outcome of one call of the external generator (Runner.run): either an
exception with a message, or a structured Quiz output. -/
inductive GenOutcome where
  | failure (message : String)
  | success (quiz : Quiz)
deriving DecidableEq

/-- Result of one attempt of the retry loop: the sanitized quiz when the call
succeeded and the sanitized result passed the content rules, none when the
call raised or validation raised. -/
def attempt_outcome (gen : Nat → GenOutcome) (min_questions : Nat) (attempt : Nat) : Option Quiz :=
  match gen attempt with
  | .failure _ => none
  | .success q =>
    let q2 := sanitize_quiz q
    match validate_content_rules q2 min_questions with
    | .ok _ => some q2
    | .error _ => none

/-- Loop of generator._run_with_retries, with the attempt counter and the
remaining budget; returns the result together with the number of generator
calls issued from this point on. -/
def run_with_retries_go (gen : Nat → GenOutcome) (min_questions : Nat) : Nat → Nat → Option Quiz × Nat
  | _, 0 => (none, 0)
  | attempt, fuel + 1 =>
    match gen attempt with
    | .success q =>
      let q2 := sanitize_quiz q
      match validate_content_rules q2 min_questions with
      | .ok _ => (some q2, 1)
      | .error _ =>
        let r := run_with_retries_go gen min_questions (attempt + 1) fuel
        (r.1, r.2 + 1)
    | .failure _ =>
      let r := run_with_retries_go gen min_questions (attempt + 1) fuel
      (r.1, r.2 + 1)

/-- Model of generator._run_with_retries: attempts run from 1 to max_attempts;
none models the Python sentinel None returned after budget exhaustion.  The
function is total, which models that the loop never raises to its caller. -/
def run_with_retries (gen : Nat → GenOutcome) (min_questions : Nat) (max_attempts : Nat := 4) : Option Quiz :=
  (run_with_retries_go gen min_questions 1 max_attempts).1

/-- Number of generator calls issued by run_with_retries. -/
def run_with_retries_calls (gen : Nat → GenOutcome) (min_questions : Nat) (max_attempts : Nat := 4) : Nat :=
  (run_with_retries_go gen min_questions 1 max_attempts).2

/-- Characters kept by generator._sanitize_filename (the regex class
[a-zA-Z0-9_-]). -/
def allowed_char (c : Char) : Bool :=
  (('a' ≤ c ∧ c ≤ 'z') ∨ ('A' ≤ c ∧ c ≤ 'Z') ∨ ('0' ≤ c ∧ c ≤ '9') ∨ c = '_' ∨ c = '-')

/-- re.sub with a one-character replacement for maximal runs matching p: the
flag records whether the previous character was part of a matching run. -/
def sub_runs_go (p : Char → Bool) (r : Char) (in_run : Bool) : List Char → List Char
  | [] => []
  | c :: cs =>
    if p c then
      if in_run then sub_runs_go p r true cs
      else r :: sub_runs_go p r true cs
    else c :: sub_runs_go p r false cs

/-- re.sub replacing every maximal run of characters matching p by the single
character r. -/
def sub_runs (p : Char → Bool) (r : Char) (l : List Char) : List Char :=
  sub_runs_go p r false l

/-- Model of generator._sanitize_filename. -/
def sanitize_filename (name : String) : String :=
  let s := py_strip Char.isWhitespace name.data
  let s := sub_runs (fun c => ! allowed_char c) '_' s
  let s := sub_runs (fun c => c == '_') '_' s
  let s := py_strip (fun c => c == '_') s
  if s.isEmpty then "quiz" else String.mk s

/-- One entry of the thema prompt-source list: a JSON object with possibly
missing or non-string name and instruction fields (none models both), or a
non-object value. -/
inductive ThemaEntry where
  | obj (name : Option String) (instruction : Option String)
  | nonObj
deriving DecidableEq

/-- The value found under the thema key of the prompt-source document: a list
of entries, or a value of some other JSON type. -/
inductive ThemaValue where
  | arr (entries : List ThemaEntry)
  | nonList
deriving DecidableEq

/-- The prompt-source document: the thema key may be absent. -/
structure PromptSource where
  thema : Option ThemaValue
deriving DecidableEq

/-- What generator.main does with one batch entry: one of the three skip
diagnostics, or processing under a chosen output name. -/
inductive EntryOutcome where
  | skippedNonObj
  | skippedNoName
  | skippedNoInstruction (name : String)
  | processed (safe_name : String) (instruction : String)
deriving DecidableEq

/-- The per-entry step of the batch loop in generator.main: skips malformed
entries, otherwise sanitizes the name, bumps the used-names counter and picks
the output name (numeric suffix from the second use of a base onward). -/
def process_entry (used : String → Nat) (e : ThemaEntry) : (String → Nat) × EntryOutcome :=
  match e with
  | .nonObj => (used, .skippedNonObj)
  | .obj name instruction =>
    match name with
    | none => (used, .skippedNoName)
    | some raw_name =>
      if (py_strip_ws raw_name).isEmpty then (used, .skippedNoName)
      else
        match instruction with
        | none => (used, .skippedNoInstruction raw_name)
        | some ins =>
          if (py_strip_ws ins).isEmpty then (used, .skippedNoInstruction raw_name)
          else
            let safe_base := sanitize_filename raw_name
            let n := used safe_base + 1
            let used2 := fun k => if k = safe_base then n else used k
            let safe_name := if n > 1 then safe_base ++ "_" ++ toString n else safe_base
            (used2, .processed safe_name ins)

/-- The batch loop of generator.main over the entry list, threading the
used-names dictionary. -/
def process_entries (used : String → Nat) : List ThemaEntry → List EntryOutcome
  | [] => []
  | e :: rest =>
    let r := process_entry used e
    r.2 :: process_entries r.1 rest

/-- The empty used-names dictionary main starts with. -/
def used0 : String → Nat := fun _ => 0

/-- Model of the batch part of generator.main: reads the thema key (default
empty list), raises when it is not a list or is empty, and otherwise runs the
entry loop.  The error constructor models the raised ValueError. -/
def run_main (src : PromptSource) : Except String (List EntryOutcome) :=
  match src.thema.getD (ThemaValue.arr []) with
  | .nonList => .error "No entries found under key thema."
  | .arr entries =>
    if entries.isEmpty then .error "No entries found under key thema."
    else .ok (process_entries used0 entries)

/-- True on the batch entries that main skips with a diagnostic: non-objects
and entries with a missing, non-string or blank name or instruction. -/
def malformed_entry : ThemaEntry → Bool
  | .nonObj => true
  | .obj none _ => true
  | .obj (some _) none => true
  | .obj (some n) (some i) => (py_strip_ws n).isEmpty || (py_strip_ws i).isEmpty

/-- True on the outcomes that record a skipped entry. -/
def is_skip : EntryOutcome → Bool
  | .processed _ _ => false
  | _ => true

/-- The sanitized base of a well-formed batch entry, none for a malformed
(skipped) one. -/
def entry_base : ThemaEntry → Option String
  | .obj (some n) (some i) =>
    if (py_strip_ws n).isEmpty ∨ (py_strip_ws i).isEmpty then none else some (sanitize_filename n)
  | _ => none

/-- The output name main assigns to the occurrence with counter value n of a
sanitized base. -/
def mk_name (base : String) (n : Nat) : String :=
  if n > 1 then base ++ "_" ++ toString n else base

/-- Number of well-formed entries with sanitized base b among the first i
entries. -/
def occ_before (es : List ThemaEntry) (i : Nat) (b : String) : Nat :=
  ((es.take i).filter (fun e => entry_base e = some b)).length

/-- A well-formed true/false question used in concrete instantiations. -/
def tf_question : QuestionItem :=
  { Question := "Is the sky blue?", WaitTimeInSec := 10,
    Answer := { AnswerType := 0, TrueFalseAnswers := some { IsTrueOrFlase := true },
                MultiChoiceAnswer := none } }

/-- A well-formed multiple-choice option list with exactly one correct
option. -/
def mc_options : List MultiChoiceItem :=
  [{ Text := "A", IsCorrect := true }, { Text := "B", IsCorrect := false },
   { Text := "C", IsCorrect := false }, { Text := "D", IsCorrect := false }]

/-- A well-formed multiple-choice question used in concrete instantiations. -/
def mc_question : QuestionItem :=
  { Question := "Pick the first letter.", WaitTimeInSec := 10,
    Answer := { AnswerType := 1, TrueFalseAnswers := none,
                MultiChoiceAnswer := some mc_options } }

/-- A quiz that passes the content rules for min_questions up to 2. -/
def good_quiz : Quiz :=
  { Questions := [tf_question, mc_question] }

/-- A four-option list with two options marked correct. -/
def mc_two_correct : List MultiChoiceItem :=
  [{ Text := "A", IsCorrect := true }, { Text := "B", IsCorrect := true },
   { Text := "C", IsCorrect := false }, { Text := "D", IsCorrect := false }]

/-- A structurally well-formed quiz whose multiple-choice question has two
correct options. -/
def bad_quiz_two_correct : Quiz :=
  { Questions := [tf_question,
      { Question := "Pick the first letter.", WaitTimeInSec := 10,
        Answer := { AnswerType := 1, TrueFalseAnswers := none,
                    MultiChoiceAnswer := some mc_two_correct } }] }

/-- A generator oracle that fails on the first attempt and returns the good
quiz from the second attempt on. -/
def gen_fail_then_good : Nat → GenOutcome :=
  fun n => if n = 1 then .failure "boom" else .success good_quiz

/-- A generator oracle that always fails. -/
def gen_always_fail : Nat → GenOutcome :=
  fun _ => .failure "boom"

/-- A raw question item with a two-character question text and otherwise
valid fields. -/
def short_text_item : QuestionItem :=
  { Question := "ab", WaitTimeInSec := 10,
    Answer := { AnswerType := 0, TrueFalseAnswers := some { IsTrueOrFlase := true },
                MultiChoiceAnswer := none } }

/-- A raw true/false answer accidentally carrying an empty multiple-choice
list. -/
def tf_with_empty_mc : AnswerSchema :=
  { AnswerType := 0, TrueFalseAnswers := some { IsTrueOrFlase := true },
    MultiChoiceAnswer := some [] }

/-- A prompt source whose thema key does not hold a list. -/
def non_list_src : PromptSource :=
  { thema := some ThemaValue.nonList }

/-- A batch with malformed entries mixed with a well-formed one. -/
def mixed_entries : List ThemaEntry :=
  [ThemaEntry.obj none (some "inst one"), ThemaEntry.nonObj,
   ThemaEntry.obj (some "Good name") (some "make a quiz"),
   ThemaEntry.obj (some "x") none]

/-- Model of the serialization in generator.main:
quiz.model_dump(mode="json", exclude_none=True)["Questions"].  Since an
Option field with value none models an omitted JSON field, dumping with
exclude_none is the identity on the typed carrier. -/
def dump_questions (quiz : Quiz) : List QuestionItem :=
  quiz.Questions
/-- The per-question properties that a quiz passing the content rules
enforces (used to state soundness of validate_content_rules). -/
def question_rules_ok (qi : QuestionItem) : Prop :=
  (qi.Answer.AnswerType = 0 →
    qi.Answer.TrueFalseAnswers.isSome = true ∧ qi.Answer.MultiChoiceAnswer = none) ∧
  (qi.Answer.AnswerType ≠ 0 →
    qi.Answer.TrueFalseAnswers = none ∧
    ∃ opts, qi.Answer.MultiChoiceAnswer = some opts ∧ opts.length = 4 ∧
      (opts.filter (fun o => o.IsCorrect)).length = 1)

lemma run_with_retries_go_succ (gen : Nat → GenOutcome) (mq a fuel : Nat) :
    run_with_retries_go gen mq a (fuel + 1) =
      match attempt_outcome gen mq a with
      | some q => (some q, 1)
      | none =>
        ((run_with_retries_go gen mq (a + 1) fuel).1,
         (run_with_retries_go gen mq (a + 1) fuel).2 + 1) := by
  cases hg : gen a with
  | failure m => simp [run_with_retries_go, attempt_outcome, hg]
  | success q =>
    cases hv : validate_content_rules (sanitize_quiz q) mq with
    | ok u => simp [run_with_retries_go, attempt_outcome, hg, hv]
    | error e => simp [run_with_retries_go, attempt_outcome, hg, hv]

lemma attempt_outcome_validates (gen : Nat → GenOutcome) (mq i : Nat) (q : Quiz)
    (h : attempt_outcome gen mq i = some q) :
    validate_content_rules q mq = .ok () := by
  unfold attempt_outcome at h
  cases hg : gen i with
  | failure m => simp [hg] at h
  | success q0 =>
    cases hv : validate_content_rules (sanitize_quiz q0) mq with
    | ok u =>
      simp [hg, hv] at h
      cases u
      rw [← h]
      exact hv
    | error e => simp [hg, hv] at h

lemma run_with_retries_go_some (gen : Nat → GenOutcome) (mq : Nat) :
    ∀ fuel a q, (run_with_retries_go gen mq a fuel).1 = some q →
      ∃ k, k < fuel ∧ attempt_outcome gen mq (a + k) = some q ∧
        (∀ j, j < k → attempt_outcome gen mq (a + j) = none) ∧
        (run_with_retries_go gen mq a fuel).2 = k + 1 := by
  intro fuel
  induction fuel with
  | zero => intro a q h; exact absurd h (by simp [run_with_retries_go])
  | succ fuel ih =>
    intro a q h
    rw [run_with_retries_go_succ] at h ⊢
    cases ha : attempt_outcome gen mq a with
    | some q0 =>
      simp only [ha, Option.some.injEq] at h ⊢
      subst h
      exact ⟨0, by omega, by simpa using ha, by omega, rfl⟩
    | none =>
      simp only [ha] at h ⊢
      obtain ⟨k, hk, hsome, hnone, hcalls⟩ := ih (a + 1) q h
      refine ⟨k + 1, by omega, ?_, ?_, by simp [hcalls]⟩
      · have he : a + (k + 1) = a + 1 + k := by omega
        rw [he]; exact hsome
      · intro j hj
        cases j with
        | zero => simpa using ha
        | succ j0 =>
          have he : a + (j0 + 1) = a + 1 + j0 := by omega
          rw [he]
          exact hnone j0 (by omega)

lemma run_with_retries_go_calls_le (gen : Nat → GenOutcome) (mq : Nat) :
    ∀ fuel a, (run_with_retries_go gen mq a fuel).2 ≤ fuel := by
  intro fuel
  induction fuel with
  | zero => intro a; simp [run_with_retries_go]
  | succ fuel ih =>
    intro a
    rw [run_with_retries_go_succ]
    cases ha : attempt_outcome gen mq a with
    | some q0 => simp [ha]
    | none => simp only [ha]; simpa using Nat.add_le_add_right (ih (a + 1)) 1

lemma run_with_retries_go_all_none (gen : Nat → GenOutcome) (mq : Nat) :
    ∀ fuel a, (∀ k, k < fuel → attempt_outcome gen mq (a + k) = none) →
      run_with_retries_go gen mq a fuel = (none, fuel) := by
  intro fuel
  induction fuel with
  | zero => intro a _; rfl
  | succ fuel ih =>
    intro a hall
    rw [run_with_retries_go_succ]
    have h0 : attempt_outcome gen mq a = none := by simpa using hall 0 (by omega)
    rw [h0]
    have hrec : run_with_retries_go gen mq (a + 1) fuel = (none, fuel) := by
      apply ih
      intro k hk
      have he : a + 1 + k = a + (k + 1) := by omega
      rw [he]
      exact hall (k + 1) (by omega)
    rw [hrec]

lemma check_questions_ok_sound (qs : List QuestionItem) :
    ∀ (seen : List String) (has_tf has_mc : Bool),
      check_questions qs seen has_tf has_mc = .ok () →
      (∀ qi ∈ qs, question_rules_ok qi) ∧
      List.Pairwise (fun q1 q2 => py_strip_lower q1.Question ≠ py_strip_lower q2.Question) qs ∧
      (∀ s ∈ seen, ∀ qi ∈ qs, py_strip_lower qi.Question ≠ s) ∧
      (has_tf = false → ∃ qi ∈ qs, qi.Answer.AnswerType = 0) ∧
      (has_mc = false → ∃ qi ∈ qs, qi.Answer.AnswerType ≠ 0) := by
  induction qs with
  | nil =>
    intro seen a b h
    simp only [check_questions] at h
    by_cases hc : ¬ a = true ∨ ¬ b = true
    · rw [if_pos hc] at h; simp at h
    · rw [if_neg hc] at h
      push_neg at hc
      refine ⟨by simp, by simp, by simp, ?_, ?_⟩
      · intro ha; exact absurd hc.1 (by simp [ha])
      · intro hb; exact absurd hc.2 (by simp [hb])
  | cons qi rest ih =>
    intro seen a b h
    simp only [check_questions] at h
    by_cases hcont : seen.contains (py_strip_lower qi.Question) = true
    · rw [if_pos hcont] at h; simp at h
    · rw [if_neg hcont] at h
      have hnotmem : py_strip_lower qi.Question ∉ seen := by
        intro hmem; exact hcont (List.elem_iff.mpr hmem)
      by_cases hat : qi.Answer.AnswerType = 0
      · rw [if_pos hat] at h
        by_cases htfn : qi.Answer.TrueFalseAnswers.isNone = true
        · rw [if_pos htfn] at h; simp at h
        · rw [if_neg htfn] at h
          by_cases hmcs : qi.Answer.MultiChoiceAnswer.isSome = true
          · rw [if_pos hmcs] at h; simp at h
          · rw [if_neg hmcs] at h
            obtain ⟨hall, hpair, hseen, htf, hmc⟩ :=
              ih (py_strip_lower qi.Question :: seen) true b h
            have hhead : question_rules_ok qi := by
              refine ⟨fun _ => ⟨?_, ?_⟩, fun hne => absurd hat hne⟩
              · cases hto : qi.Answer.TrueFalseAnswers with
                | none => exact absurd (by simp [hto]) htfn
                | some v => simp
              · cases hmo : qi.Answer.MultiChoiceAnswer with
                | none => rfl
                | some v => exact absurd (by simp [hmo]) hmcs
            refine ⟨?_, ?_, ?_, ?_, ?_⟩
            · intro qi' hmem
              rcases List.mem_cons.mp hmem with rfl | hmem
              · exact hhead
              · exact hall qi' hmem
            · refine List.pairwise_cons.mpr ⟨?_, hpair⟩
              intro b2 hb2
              exact (hseen (py_strip_lower qi.Question) (List.mem_cons_self _ _) b2 hb2).symm
            · intro s hs qi' hmem
              rcases List.mem_cons.mp hmem with rfl | hmem
              · intro heq
                exact hnotmem (heq ▸ hs)
              · exact hseen s (List.mem_cons_of_mem _ hs) qi' hmem
            · exact fun _ => ⟨qi, List.mem_cons_self _ _, hat⟩
            · intro hb
              obtain ⟨x, hx, hx0⟩ := hmc hb
              exact ⟨x, List.mem_cons_of_mem _ hx, hx0⟩
      · rw [if_neg hat] at h
        cases hmc0 : qi.Answer.MultiChoiceAnswer with
        | none => simp [hmc0] at h
        | some opts =>
          simp only [hmc0] at h
          by_cases hlen : opts.isEmpty = true ∨ opts.length ≠ 4
          · rw [if_pos hlen] at h; simp at h
          · rw [if_neg hlen] at h
            by_cases hcor : (opts.filter (fun o => o.IsCorrect)).length ≠ 1
            · rw [if_pos hcor] at h; simp at h
            · rw [if_neg hcor] at h
              by_cases htfs : qi.Answer.TrueFalseAnswers.isSome = true
              · rw [if_pos htfs] at h; simp at h
              · rw [if_neg htfs] at h
                obtain ⟨hall, hpair, hseen, htf, hmc⟩ :=
                  ih (py_strip_lower qi.Question :: seen) a true h
                push_neg at hlen hcor
                have hhead : question_rules_ok qi := by
                  refine ⟨fun h0 => absurd h0 hat, fun _ => ⟨?_, opts, hmc0, hlen.2, hcor⟩⟩
                  cases hto : qi.Answer.TrueFalseAnswers with
                  | none => rfl
                  | some v => exact absurd (by simp [hto]) htfs
                refine ⟨?_, ?_, ?_, ?_, ?_⟩
                · intro qi' hmem
                  rcases List.mem_cons.mp hmem with rfl | hmem
                  · exact hhead
                  · exact hall qi' hmem
                · refine List.pairwise_cons.mpr ⟨?_, hpair⟩
                  intro b2 hb2
                  exact (hseen (py_strip_lower qi.Question) (List.mem_cons_self _ _) b2 hb2).symm
                · intro s hs qi' hmem
                  rcases List.mem_cons.mp hmem with rfl | hmem
                  · intro heq
                    exact hnotmem (heq ▸ hs)
                  · exact hseen s (List.mem_cons_of_mem _ hs) qi' hmem
                · intro ha
                  obtain ⟨x, hx, hx0⟩ := htf ha
                  exact ⟨x, List.mem_cons_of_mem _ hx, hx0⟩
                · exact fun _ => ⟨qi, List.mem_cons_self _ _, hat⟩

lemma validate_ok_sound (quiz : Quiz) (min_questions : Nat)
    (h : validate_content_rules quiz min_questions = .ok ()) :
    min_questions ≤ quiz.Questions.length ∧
    (∀ qi ∈ quiz.Questions, question_rules_ok qi) ∧
    List.Pairwise (fun q1 q2 => py_strip_lower q1.Question ≠ py_strip_lower q2.Question)
      quiz.Questions ∧
    (∃ qi ∈ quiz.Questions, qi.Answer.AnswerType = 0) ∧
    (∃ qi ∈ quiz.Questions, qi.Answer.AnswerType ≠ 0) := by
  unfold validate_content_rules at h
  by_cases hlt : quiz.Questions.length < min_questions
  · rw [if_pos hlt] at h; simp at h
  · rw [if_neg hlt] at h
    obtain ⟨hall, hpair, _, htf, hmc⟩ := check_questions_ok_sound quiz.Questions [] false false h
    exact ⟨by omega, hall, hpair, htf rfl, hmc rfl⟩

/-- C1: whenever the retry loop returns a quiz, that quiz passes every rule of
validate_content_rules (at least min_questions questions, pairwise distinct
stripped lowercased texts, at least one true/false and one multiple-choice
item, and every present multiple-choice payload has exactly 4 options with
exactly one marked correct), and it is the sanitized output of the first
attempt whose result validates, all earlier attempts having failed, with
exactly that many generator calls issued. -/
theorem run_with_retries_returns_first_valid
    (gen : Nat → GenOutcome) (min_questions max_attempts : Nat) (q : Quiz)
    (h : run_with_retries gen min_questions max_attempts = some q) :
    (validate_content_rules q min_questions = .ok () ∧
     min_questions ≤ q.Questions.length ∧
     List.Pairwise (fun q1 q2 => py_strip_lower q1.Question ≠ py_strip_lower q2.Question)
       q.Questions ∧
     (∃ qi ∈ q.Questions, qi.Answer.AnswerType = 0) ∧
     (∃ qi ∈ q.Questions, qi.Answer.AnswerType ≠ 0) ∧
     (∀ qi ∈ q.Questions, ∀ opts, qi.Answer.MultiChoiceAnswer = some opts →
        opts.length = 4 ∧ (opts.filter (fun o => o.IsCorrect)).length = 1)) ∧
    ∃ i, 1 ≤ i ∧ i ≤ max_attempts ∧ attempt_outcome gen min_questions i = some q ∧
      (∀ j, 1 ≤ j → j < i → attempt_outcome gen min_questions j = none) ∧
      run_with_retries_calls gen min_questions max_attempts = i := by
  obtain ⟨k, hk, hsome, hnone, hcalls⟩ :=
    run_with_retries_go_some gen min_questions max_attempts 1 q h
  have hval := attempt_outcome_validates gen min_questions (1 + k) q hsome
  obtain ⟨hlen, hall, hpair, htf, hmc⟩ := validate_ok_sound q min_questions hval
  constructor
  · refine ⟨hval, hlen, hpair, htf, hmc, ?_⟩
    intro qi hmem opts hopts
    obtain ⟨h0, h1⟩ := hall qi hmem
    by_cases hat : qi.Answer.AnswerType = 0
    · have hmcn := (h0 hat).2
      rw [hopts] at hmcn
      exact absurd hmcn (by simp)
    · obtain ⟨_, opts2, hopts2, hlen2, hcor2⟩ := h1 hat
      rw [hopts] at hopts2
      have heq := Option.some.inj hopts2
      subst heq
      exact ⟨hlen2, hcor2⟩
  · refine ⟨1 + k, by omega, by omega, hsome, ?_, ?_⟩
    · intro j hj1 hjk
      have hje : j = 1 + (j - 1) := by omega
      rw [hje]
      exact hnone (j - 1) (by omega)
    · show (run_with_retries_go gen min_questions 1 max_attempts).2 = 1 + k
      rw [hcalls]
      omega

theorem run_with_retries_returns_first_valid_witness :
    run_with_retries gen_fail_then_good 2 4 = some good_quiz ∧
    validate_content_rules good_quiz 2 = .ok () ∧
    run_with_retries_calls gen_fail_then_good 2 4 = 2 :=
  ⟨rfl, (run_with_retries_returns_first_valid gen_fail_then_good 2 4 good_quiz rfl).1.1, rfl⟩

/-- C2: the retry loop never issues more than max_attempts generator calls,
and when every attempt in the budget fails (generator failure or validation
failure) it returns the sentinel none after exactly max_attempts calls; the
function is total, modelling that it never raises to its caller. -/
theorem run_with_retries_exhaustion_and_call_bound
    (gen : Nat → GenOutcome) (min_questions max_attempts : Nat) :
    run_with_retries_calls gen min_questions max_attempts ≤ max_attempts ∧
    ((∀ i, 1 ≤ i → i ≤ max_attempts → attempt_outcome gen min_questions i = none) →
      run_with_retries gen min_questions max_attempts = none ∧
      run_with_retries_calls gen min_questions max_attempts = max_attempts) := by
  constructor
  · exact run_with_retries_go_calls_le gen min_questions max_attempts 1
  · intro hall
    have hgo : run_with_retries_go gen min_questions 1 max_attempts = (none, max_attempts) := by
      apply run_with_retries_go_all_none
      intro k hk
      exact hall (1 + k) (by omega) (by omega)
    constructor
    · show (run_with_retries_go gen min_questions 1 max_attempts).1 = none
      rw [hgo]
    · show (run_with_retries_go gen min_questions 1 max_attempts).2 = max_attempts
      rw [hgo]

theorem run_with_retries_exhaustion_and_call_bound_witness :
    run_with_retries_calls gen_always_fail 10 4 ≤ 4 ∧
    run_with_retries gen_always_fail 10 4 = none ∧
    run_with_retries_calls gen_always_fail 10 4 = 4 := by
  have h := run_with_retries_exhaustion_and_call_bound gen_always_fail 10 4
  have h2 := h.2 (fun i _ _ => rfl)
  exact ⟨h.1, h2.1, h2.2⟩

/-- C4: any quiz containing a multiple-choice payload that does not have
exactly 4 options with exactly one marked correct is rejected by
validate_content_rules. -/
theorem validate_rejects_bad_multi_choice (quiz : Quiz) (min_questions : Nat)
    (h : ∃ qi ∈ quiz.Questions, ∃ opts, qi.Answer.MultiChoiceAnswer = some opts ∧
         (opts.length ≠ 4 ∨ (opts.filter (fun o => o.IsCorrect)).length ≠ 1)) :
    ∃ msg, validate_content_rules quiz min_questions = .error msg := by
  cases hv : validate_content_rules quiz min_questions with
  | error e => exact ⟨e, rfl⟩
  | ok u =>
    cases u
    exfalso
    obtain ⟨qi, hmem, opts, hopts, hbad⟩ := h
    obtain ⟨_, hall, _, _, _⟩ := validate_ok_sound quiz min_questions hv
    obtain ⟨h0, h1⟩ := hall qi hmem
    by_cases hat : qi.Answer.AnswerType = 0
    · have hmcn := (h0 hat).2
      rw [hopts] at hmcn
      exact absurd hmcn (by simp)
    · obtain ⟨_, opts2, hopts2, hlen2, hcor2⟩ := h1 hat
      rw [hopts] at hopts2
      have heq := Option.some.inj hopts2
      subst heq
      rcases hbad with hb | hb
      · exact hb hlen2
      · exact hb hcor2

theorem validate_rejects_bad_multi_choice_witness :
    (mc_two_correct.length = 4 ∧ (mc_two_correct.filter (fun o => o.IsCorrect)).length = 2) ∧
    validate_content_rules bad_quiz_two_correct 2 =
      .error "AnswerType=1 must have exactly one correct option." ∧
    validate_content_rules bad_quiz_two_correct 2 ≠ .ok () := by
  have hbad : ∃ qi ∈ bad_quiz_two_correct.Questions, ∃ opts,
      qi.Answer.MultiChoiceAnswer = some opts ∧
      (opts.length ≠ 4 ∨ (opts.filter (fun o => o.IsCorrect)).length ≠ 1) := by
    refine ⟨{ Question := "Pick the first letter.", WaitTimeInSec := 10,
              Answer := { AnswerType := 1, TrueFalseAnswers := none,
                          MultiChoiceAnswer := some mc_two_correct } },
            ?_, mc_two_correct, rfl, Or.inr (by decide)⟩
    decide
  obtain ⟨msg, hmsg⟩ := validate_rejects_bad_multi_choice bad_quiz_two_correct 2 hbad
  refine ⟨⟨rfl, rfl⟩, rfl, ?_⟩
  rw [hmsg]
  simp

/-- C8: normalization is idempotent: running the sanitize pass twice equals
running it once, and the before-validator normalization of an answer is
idempotent as well. -/
theorem normalization_idempotent (quiz : Quiz) (a : AnswerSchema) :
    sanitize_quiz (sanitize_quiz quiz) = sanitize_quiz quiz ∧
    AnswerSchema.normalize_input (AnswerSchema.normalize_input a) =
      AnswerSchema.normalize_input a := by
  constructor
  · unfold sanitize_quiz
    congr 1
    rw [List.map_map]
    apply List.map_congr_left
    intro q _
    by_cases hat : q.Answer.AnswerType = 0 <;> simp [hat, Function.comp]
  · unfold AnswerSchema.normalize_input
    by_cases h0 : a.AnswerType = 0
    · simp [h0]
    · by_cases h1 : a.AnswerType = 1 <;> simp [h0, h1]

lemma parse_of_clean_tf (x : AnswerSchema) (h0 : x.AnswerType = 0)
    (htf : x.TrueFalseAnswers.isSome = true) (hmc : x.MultiChoiceAnswer = none) :
    AnswerSchema.parse x = .ok x := by
  obtain ⟨xat, xtf, xmc⟩ := x
  simp only at h0 htf hmc
  subst h0; subst hmc
  cases xtf with
  | none => simp at htf
  | some v =>
    simp [AnswerSchema.parse, AnswerSchema.normalize_input, AnswerSchema.validate_shape,
      mc_items_ok]

lemma parse_of_clean_mc (x : AnswerSchema) (h1 : x.AnswerType = 1)
    (htf : x.TrueFalseAnswers = none) (opts : List MultiChoiceItem)
    (hmc : x.MultiChoiceAnswer = some opts)
    (hemp : opts.isEmpty ≠ true)
    (hany : opts.any (fun o => o.IsCorrect) = true)
    (hdup : dup_texts opts ≠ true)
    (hitems : mc_items_ok (some opts) = true) :
    AnswerSchema.parse x = .ok x := by
  obtain ⟨xat, xtf, xmc⟩ := x
  simp only at h1 htf hmc
  subst h1; subst htf; subst hmc
  simp [AnswerSchema.parse, AnswerSchema.normalize_input, AnswerSchema.validate_shape,
    hitems, hemp, hany, hdup]

lemma answer_parse_ok (a r : AnswerSchema) (h : AnswerSchema.parse a = .ok r) :
    AnswerSchema.parse r = .ok r ∧
    ((r.AnswerType = 0 ∧ r.TrueFalseAnswers.isSome = true ∧ r.MultiChoiceAnswer = none) ∨
     (r.AnswerType = 1 ∧ r.TrueFalseAnswers = none ∧
       ∃ opts, r.MultiChoiceAnswer = some opts ∧ opts ≠ [])) := by
  simp only [AnswerSchema.parse] at h
  by_cases hlit : (AnswerSchema.normalize_input a).AnswerType = 0 ∨
      (AnswerSchema.normalize_input a).AnswerType = 1
  · rw [if_neg (not_not_intro hlit)] at h
    by_cases hmk : mc_items_ok (AnswerSchema.normalize_input a).MultiChoiceAnswer = true
    · rw [if_neg (not_not_intro hmk)] at h
      unfold AnswerSchema.validate_shape at h
      by_cases hat : (AnswerSchema.normalize_input a).AnswerType = 0
      · rw [if_pos hat] at h
        cases htf : (AnswerSchema.normalize_input a).TrueFalseAnswers with
        | none => rw [htf] at h; simp at h
        | some v =>
          rw [htf] at h
          have hr := Except.ok.inj h
          subst hr
          refine ⟨parse_of_clean_tf _ (by simpa using hat) (by simp) rfl,
            Or.inl ⟨by simpa using hat, by simp, rfl⟩⟩
      · rw [if_neg hat] at h
        have hat1 : (AnswerSchema.normalize_input a).AnswerType = 1 := hlit.resolve_left hat
        cases hmc : (AnswerSchema.normalize_input a).MultiChoiceAnswer with
        | none => rw [hmc] at h; simp at h
        | some opts =>
          simp only [hmc] at h
          by_cases hemp : opts.isEmpty = true
          · rw [if_pos hemp] at h; simp at h
          · rw [if_neg hemp] at h
            by_cases hany : opts.any (fun o => o.IsCorrect) = true
            · rw [if_neg (not_not_intro hany)] at h
              by_cases hdup : dup_texts opts = true
              · rw [if_pos hdup] at h; simp at h
              · rw [if_neg hdup] at h
                have hr := Except.ok.inj h
                subst hr
                rw [hmc] at hmk
                refine ⟨parse_of_clean_mc _ (by simpa using hat1) rfl opts rfl hemp hany hdup hmk,
                  Or.inr ⟨by simpa using hat1, rfl, opts, rfl, ?_⟩⟩
                intro hnil
                exact hemp (by simp [hnil])
            · rw [if_pos hany] at h; simp at h
    · rw [if_pos hmk] at h; simp at h
  · rw [if_pos hlit] at h; simp at h

lemma question_parse_ok (i r : QuestionItem) (h : QuestionItem.parse i = .ok r) :
    QuestionItem.parse r = .ok r ∧
    ((r.Answer.AnswerType = 0 ∧ r.Answer.TrueFalseAnswers.isSome = true ∧
        r.Answer.MultiChoiceAnswer = none) ∨
     (r.Answer.AnswerType = 1 ∧ r.Answer.TrueFalseAnswers = none ∧
       ∃ opts, r.Answer.MultiChoiceAnswer = some opts ∧ opts ≠ [])) := by
  unfold QuestionItem.parse at h
  by_cases hq : i.Question.length < 3
  · rw [if_pos hq] at h; simp at h
  · rw [if_neg hq] at h
    by_cases hw : ¬(1 ≤ i.WaitTimeInSec ∧ i.WaitTimeInSec ≤ 60)
    · rw [if_pos hw] at h; simp at h
    · rw [if_neg hw] at h
      cases hp : AnswerSchema.parse i.Answer with
      | error e => rw [hp] at h; simp at h
      | ok a2 =>
        rw [hp] at h
        have hr := Except.ok.inj h
        subst hr
        obtain ⟨hidem, hshape⟩ := answer_parse_ok i.Answer a2 hp
        constructor
        · unfold QuestionItem.parse
          rw [if_neg (by simpa using hq), if_neg (by simpa using hw)]
          simp only [hidem]
        · simpa using hshape

lemma parse_questions_ok : ∀ l l2, parse_questions l = .ok l2 →
    parse_questions l2 = .ok l2 ∧
    ∀ qi ∈ l2,
      (qi.Answer.AnswerType = 0 ∧ qi.Answer.TrueFalseAnswers.isSome = true ∧
        qi.Answer.MultiChoiceAnswer = none) ∨
      (qi.Answer.AnswerType = 1 ∧ qi.Answer.TrueFalseAnswers = none ∧
        ∃ opts, qi.Answer.MultiChoiceAnswer = some opts ∧ opts ≠ []) := by
  intro l
  induction l with
  | nil =>
    intro l2 h
    simp only [parse_questions] at h
    have hr := Except.ok.inj h
    subst hr
    exact ⟨rfl, by simp⟩
  | cons it rest ih =>
    intro l2 h
    simp only [parse_questions] at h
    cases hp : QuestionItem.parse it with
    | error e => rw [hp] at h; simp at h
    | ok it2 =>
      rw [hp] at h
      cases hrest : parse_questions rest with
      | error e => rw [hrest] at h; simp at h
      | ok l3 =>
        rw [hrest] at h
        have hr := Except.ok.inj h
        subst hr
        obtain ⟨hidem1, hshape1⟩ := question_parse_ok it it2 hp
        obtain ⟨hidem2, hshape2⟩ := ih l3 hrest
        constructor
        · simp only [parse_questions, hidem1, hidem2]
        · intro qi hmem
          rcases List.mem_cons.mp hmem with rfl | hmem
          · exact hshape1
          · exact hshape2 qi hmem

/-- C9: a quiz obtained through schema parsing and accepted by the content
rules, when dumped to the persisted array form (None fields omitted) and
re-parsed through the schema, yields the same document. -/
theorem quiz_parse_roundtrip (raw : List QuestionItem) (q : Quiz) (min_questions : Nat)
    (hp : Quiz.parse raw = .ok q)
    (hv : validate_content_rules q min_questions = .ok ()) :
    Quiz.parse (dump_questions q) = .ok q := by
  unfold Quiz.parse at hp ⊢
  cases hr : parse_questions raw with
  | error e => rw [hr] at hp; simp at hp
  | ok l =>
    rw [hr] at hp
    have hq := Except.ok.inj hp
    subst hq
    show (match parse_questions l with
      | .error e => Except.error e
      | .ok l2 => Except.ok (Quiz.mk l2)) = _
    rw [(parse_questions_ok raw l hr).1]

theorem quiz_parse_roundtrip_witness :
    Quiz.parse [tf_question, mc_question] = .ok good_quiz ∧
    validate_content_rules good_quiz 2 = .ok () ∧
    Quiz.parse (dump_questions good_quiz) = .ok good_quiz :=
  ⟨rfl, rfl, quiz_parse_roundtrip [tf_question, mc_question] good_quiz 2 rfl rfl⟩

lemma sanitize_quiz_of_clean (q : Quiz)
    (hclean : ∀ qi ∈ q.Questions,
      (qi.Answer.AnswerType = 0 → qi.Answer.MultiChoiceAnswer = none) ∧
      (qi.Answer.AnswerType ≠ 0 → qi.Answer.TrueFalseAnswers = none)) :
    sanitize_quiz q = q := by
  unfold sanitize_quiz
  have hmap : q.Questions.map (fun qi =>
      if qi.Answer.AnswerType = 0 then
        { qi with Answer := { qi.Answer with MultiChoiceAnswer := none } }
      else
        { qi with Answer := { qi.Answer with TrueFalseAnswers := none } }) = q.Questions := by
    have hcongr : q.Questions.map (fun qi =>
        if qi.Answer.AnswerType = 0 then
          { qi with Answer := { qi.Answer with MultiChoiceAnswer := none } }
        else
          { qi with Answer := { qi.Answer with TrueFalseAnswers := none } }) =
        q.Questions.map id := by
      apply List.map_congr_left
      intro x hx
      obtain ⟨h1, h2⟩ := hclean x hx
      show _ = x
      by_cases hat : x.Answer.AnswerType = 0
      · rw [if_pos hat, ← h1 hat]
      · rw [if_neg hat, ← h2 hat]
    rw [hcongr, List.map_id]
  rw [hmap]

lemma check_questions_no_mutex (qs : List QuestionItem) :
    ∀ (seen : List String) (a b : Bool),
      (∀ qi ∈ qs,
        (qi.Answer.AnswerType = 0 → qi.Answer.MultiChoiceAnswer = none) ∧
        (qi.Answer.AnswerType ≠ 0 → qi.Answer.TrueFalseAnswers = none)) →
      check_questions qs seen a b ≠ .error "AnswerType=0 must not have MultiChoiceAnswer." ∧
      check_questions qs seen a b ≠ .error "AnswerType=1 must not have TrueFalseAnswers." := by
  induction qs with
  | nil =>
    intro seen a b _
    simp only [check_questions]
    by_cases hc : ¬ a = true ∨ ¬ b = true
    · rw [if_pos hc]
      exact ⟨fun he => absurd (Except.error.inj he) (by decide),
             fun he => absurd (Except.error.inj he) (by decide)⟩
    · rw [if_neg hc]
      exact ⟨fun he => Except.noConfusion he, fun he => Except.noConfusion he⟩
  | cons qi rest ih =>
    intro seen a b hclean
    have hhead := hclean qi (List.mem_cons_self _ _)
    have htail : ∀ qi' ∈ rest,
        (qi'.Answer.AnswerType = 0 → qi'.Answer.MultiChoiceAnswer = none) ∧
        (qi'.Answer.AnswerType ≠ 0 → qi'.Answer.TrueFalseAnswers = none) :=
      fun qi' hm => hclean qi' (List.mem_cons_of_mem _ hm)
    simp only [check_questions]
    by_cases hcont : seen.contains (py_strip_lower qi.Question) = true
    · rw [if_pos hcont]
      exact ⟨fun he => absurd (Except.error.inj he) (by decide),
             fun he => absurd (Except.error.inj he) (by decide)⟩
    · rw [if_neg hcont]
      by_cases hat : qi.Answer.AnswerType = 0
      · rw [if_pos hat]
        by_cases htfn : qi.Answer.TrueFalseAnswers.isNone = true
        · rw [if_pos htfn]
          exact ⟨fun he => absurd (Except.error.inj he) (by decide),
                 fun he => absurd (Except.error.inj he) (by decide)⟩
        · rw [if_neg htfn]
          have hmcs : ¬ qi.Answer.MultiChoiceAnswer.isSome = true := by
            simp [hhead.1 hat]
          rw [if_neg hmcs]
          exact ih (py_strip_lower qi.Question :: seen) true b htail
      · rw [if_neg hat]
        cases hmc0 : qi.Answer.MultiChoiceAnswer with
        | none =>
          exact ⟨fun he => absurd (Except.error.inj he) (by decide),
                 fun he => absurd (Except.error.inj he) (by decide)⟩
        | some opts =>
          dsimp only
          by_cases hlen : opts.isEmpty = true ∨ opts.length ≠ 4
          · rw [if_pos hlen]
            exact ⟨fun he => absurd (Except.error.inj he) (by decide),
                   fun he => absurd (Except.error.inj he) (by decide)⟩
          · rw [if_neg hlen]
            by_cases hcor : (opts.filter (fun o => o.IsCorrect)).length ≠ 1
            · rw [if_pos hcor]
              exact ⟨fun he => absurd (Except.error.inj he) (by decide),
                     fun he => absurd (Except.error.inj he) (by decide)⟩
            · rw [if_neg hcor]
              have hts : ¬ qi.Answer.TrueFalseAnswers.isSome = true := by
                simp [hhead.2 hat]
              rw [if_neg hts]
              exact ih (py_strip_lower qi.Question :: seen) a true htail

/-- C10: every answer of a parsed (and hence sanitize-invariant) quiz
carries exactly the payload matching its declared AnswerType, so the two
mutual-exclusion error branches of validate_content_rules are unreachable
on such inputs. -/
theorem parsed_sanitized_payloads_match (raw : List QuestionItem) (q : Quiz)
    (min_questions : Nat) (hp : Quiz.parse raw = .ok q) :
    sanitize_quiz q = q ∧
    (∀ qi ∈ q.Questions,
      (qi.Answer.AnswerType = 0 →
        qi.Answer.TrueFalseAnswers.isSome = true ∧ qi.Answer.MultiChoiceAnswer = none) ∧
      (qi.Answer.AnswerType ≠ 0 →
        qi.Answer.MultiChoiceAnswer.isSome = true ∧ qi.Answer.TrueFalseAnswers = none)) ∧
    validate_content_rules (sanitize_quiz q) min_questions ≠
      .error "AnswerType=0 must not have MultiChoiceAnswer." ∧
    validate_content_rules (sanitize_quiz q) min_questions ≠
      .error "AnswerType=1 must not have TrueFalseAnswers." := by
  unfold Quiz.parse at hp
  cases hr : parse_questions raw with
  | error e => rw [hr] at hp; simp at hp
  | ok l =>
    rw [hr] at hp
    have hq := Except.ok.inj hp
    subst hq
    have hshape := (parse_questions_ok raw l hr).2
    have hfull : ∀ qi ∈ (Quiz.mk l).Questions,
        (qi.Answer.AnswerType = 0 →
          qi.Answer.TrueFalseAnswers.isSome = true ∧ qi.Answer.MultiChoiceAnswer = none) ∧
        (qi.Answer.AnswerType ≠ 0 →
          qi.Answer.MultiChoiceAnswer.isSome = true ∧ qi.Answer.TrueFalseAnswers = none) := by
      intro qi hmem
      rcases hshape qi hmem with ⟨h0, htf, hmc⟩ | ⟨h1, htf, opts, hmc, hne⟩
      · exact ⟨fun _ => ⟨htf, hmc⟩, fun hne0 => absurd h0 hne0⟩
      · refine ⟨fun h0 => ?_, fun _ => ⟨by simp [hmc], htf⟩⟩
        rw [h0] at h1
        exact absurd h1 (by decide)
    have hclean : ∀ qi ∈ (Quiz.mk l).Questions,
        (qi.Answer.AnswerType = 0 → qi.Answer.MultiChoiceAnswer = none) ∧
        (qi.Answer.AnswerType ≠ 0 → qi.Answer.TrueFalseAnswers = none) := by
      intro qi hmem
      exact ⟨fun h0 => ((hfull qi hmem).1 h0).2, fun hne => ((hfull qi hmem).2 hne).2⟩
    have hsan : sanitize_quiz (Quiz.mk l) = Quiz.mk l := sanitize_quiz_of_clean _ hclean
    refine ⟨hsan, hfull, ?_, ?_⟩ <;> rw [hsan] <;> unfold validate_content_rules
    · by_cases hlt : (Quiz.mk l).Questions.length < min_questions
      · rw [if_pos hlt]
        intro he
        have h2 := congrArg (fun x : String => x.data.head?) (Except.error.inj he)
        simp [String.data_append] at h2
      · rw [if_neg hlt]
        exact (check_questions_no_mutex l [] false false hclean).1
    · by_cases hlt : (Quiz.mk l).Questions.length < min_questions
      · rw [if_pos hlt]
        intro he
        have h2 := congrArg (fun x : String => x.data.head?) (Except.error.inj he)
        simp [String.data_append] at h2
      · rw [if_neg hlt]
        exact (check_questions_no_mutex l [] false false hclean).2

theorem parsed_sanitized_payloads_match_witness :
    Quiz.parse [tf_question, mc_question] = .ok good_quiz ∧
    sanitize_quiz good_quiz = good_quiz ∧
    validate_content_rules (sanitize_quiz good_quiz) 2 ≠
      .error "AnswerType=0 must not have MultiChoiceAnswer." ∧
    validate_content_rules (sanitize_quiz good_quiz) 2 ≠
      .error "AnswerType=1 must not have TrueFalseAnswers." := by
  have h := parsed_sanitized_payloads_match [tf_question, mc_question] good_quiz 2 rfl
  exact ⟨rfl, h.1, h.2.2.1, h.2.2.2⟩

/-- C5 amended: a QuestionItem is accepted by the schema exactly when its
question text has length at least 3 (not merely non-empty), its
WaitTimeInSec lies in [1,60], and its answer parses. -/
theorem question_item_accepted_iff (item : QuestionItem) :
    (∃ r, QuestionItem.parse item = .ok r) ↔
      (3 ≤ item.Question.length ∧ 1 ≤ item.WaitTimeInSec ∧ item.WaitTimeInSec ≤ 60 ∧
       ∃ a2, AnswerSchema.parse item.Answer = .ok a2) := by
  unfold QuestionItem.parse
  by_cases hq : item.Question.length < 3
  · rw [if_pos hq]
    constructor
    · rintro ⟨r, hr⟩; simp at hr
    · rintro ⟨h3, _⟩; omega
  · rw [if_neg hq]
    by_cases hw : ¬(1 ≤ item.WaitTimeInSec ∧ item.WaitTimeInSec ≤ 60)
    · rw [if_pos hw]
      constructor
      · rintro ⟨r, hr⟩; simp at hr
      · rintro ⟨_, h1, h2, _⟩; exact absurd ⟨h1, h2⟩ hw
    · rw [if_neg hw]
      rw [not_not] at hw
      cases hp : AnswerSchema.parse item.Answer with
      | error e =>
        constructor
        · rintro ⟨r, hr⟩; simp at hr
        · rintro ⟨_, _, _, a2, ha2⟩
          simp at ha2
      | ok a2 =>
        constructor
        · intro _; exact ⟨by omega, hw.1, hw.2, a2, rfl⟩
        · intro _; exact ⟨{ item with Answer := a2 }, rfl⟩

/-- C5 counterexample: a question item whose text is the non-empty
two-character string ab, with valid wait time and a valid answer, is
rejected by QuestionItem parsing, refuting the claim that any non-empty
text is accepted. -/
theorem question_item_short_text_rejected :
    short_text_item.Question = "ab" ∧
    short_text_item.Question ≠ "" ∧
    short_text_item.WaitTimeInSec = 10 ∧
    AnswerSchema.parse short_text_item.Answer = .ok short_text_item.Answer ∧
    QuestionItem.parse short_text_item =
      .error "Question: string should have at least 3 characters" :=
  ⟨rfl, by decide, rfl, rfl, rfl⟩

lemma parse_when_tf (a : AnswerSchema) (h : a.AnswerType = 0) :
    AnswerSchema.parse a =
      match a.TrueFalseAnswers with
      | none => .error "TrueFalseAnswers must be provided when AnswerType=0."
      | some _ => .ok { a with MultiChoiceAnswer := none } := by
  obtain ⟨xat, xtf, xmc⟩ := a
  simp only at h
  subst h
  cases xtf <;>
    simp [AnswerSchema.parse, AnswerSchema.normalize_input, AnswerSchema.validate_shape,
      mc_items_ok]

/-- C7: for a declared true/false answer the before-validator drops any
multiple-choice payload, parsing gives the same result as if the payload
had been absent (so an accidental list, even empty, never causes
rejection), and any parse result carries no multiple-choice payload. -/
theorem tf_answer_mc_payload_stripped (a : AnswerSchema) (h : a.AnswerType = 0) :
    (AnswerSchema.normalize_input a).MultiChoiceAnswer = none ∧
    AnswerSchema.parse a = AnswerSchema.parse { a with MultiChoiceAnswer := none } ∧
    (∀ r, AnswerSchema.parse a = .ok r → r.MultiChoiceAnswer = none) := by
  refine ⟨?_, ?_, ?_⟩
  · unfold AnswerSchema.normalize_input
    rw [if_pos h]
  · rw [parse_when_tf a h, parse_when_tf { a with MultiChoiceAnswer := none } (by simpa using h)]
  · intro r hr
    rw [parse_when_tf a h] at hr
    cases htf : a.TrueFalseAnswers with
    | none => rw [htf] at hr; simp at hr
    | some v =>
      rw [htf] at hr
      have := Except.ok.inj hr
      rw [← this]

theorem tf_answer_mc_payload_stripped_witness :
    tf_with_empty_mc.AnswerType = 0 ∧
    tf_with_empty_mc.MultiChoiceAnswer = some [] ∧
    (AnswerSchema.normalize_input tf_with_empty_mc).MultiChoiceAnswer = none ∧
    AnswerSchema.parse tf_with_empty_mc =
      AnswerSchema.parse { tf_with_empty_mc with MultiChoiceAnswer := none } ∧
    AnswerSchema.parse tf_with_empty_mc =
      .ok { AnswerType := 0, TrueFalseAnswers := some { IsTrueOrFlase := true },
            MultiChoiceAnswer := none } := by
  have h := tf_answer_mc_payload_stripped tf_with_empty_mc rfl
  exact ⟨rfl, rfl, h.1, h.2.1, rfl⟩

lemma process_entry_skip (used : String → Nat) (e : ThemaEntry) :
    is_skip (process_entry used e).2 = malformed_entry e := by
  cases e with
  | nonObj => rfl
  | obj name instruction =>
    cases name with
    | none => rfl
    | some n =>
      cases instruction with
      | none =>
        by_cases hn : (py_strip_ws n).isEmpty = true <;>
          simp [process_entry, malformed_entry, is_skip, hn]
      | some i =>
        by_cases hn : (py_strip_ws n).isEmpty = true
        · simp [process_entry, malformed_entry, is_skip, hn]
        · by_cases hi : (py_strip_ws i).isEmpty = true <;>
            simp [process_entry, malformed_entry, is_skip, hn, hi]

lemma process_entries_length (es : List ThemaEntry) :
    ∀ used, (process_entries used es).length = es.length := by
  induction es with
  | nil => intro used; rfl
  | cons e rest ih => intro used; simp [process_entries, ih]

lemma process_entries_skip_map (es : List ThemaEntry) :
    ∀ used, (process_entries used es).map is_skip = es.map malformed_entry := by
  induction es with
  | nil => intro used; rfl
  | cons e rest ih =>
    intro used
    simp only [process_entries, List.map_cons, process_entry_skip, ih]

/-- C3 counterexample: a prompt source whose thema value is not a list makes
main raise (modelled by the error result) instead of being skipped, refuting
the claim for that input. -/
theorem thema_not_list_aborts_run :
    run_main non_list_src = .error "No entries found under key thema." := rfl

/-- C3 amended: when the thema key holds a non-empty list, the batch loop
never aborts: it yields one outcome per entry, and an outcome is a skip
diagnostic exactly on the malformed entries (non-object, or missing/blank
name or instruction), so the run continues past them. -/
theorem batch_skips_malformed_entries (src : PromptSource) (es : List ThemaEntry)
    (hth : src.thema = some (ThemaValue.arr es)) (hne : es ≠ []) :
    ∃ outs, run_main src = .ok outs ∧ outs.length = es.length ∧
      outs.map is_skip = es.map malformed_entry := by
  refine ⟨process_entries used0 es, ?_, process_entries_length es used0,
    process_entries_skip_map es used0⟩
  unfold run_main
  rw [hth]
  show (match ThemaValue.arr es with
    | .nonList => Except.error "No entries found under key thema."
    | .arr entries =>
      if entries.isEmpty then Except.error "No entries found under key thema."
      else Except.ok (process_entries used0 entries)) = _
  have hemp : ¬ es.isEmpty = true := by
    intro hx
    exact hne (List.isEmpty_iff.mp hx)
  dsimp only
  rw [if_neg hemp]

theorem batch_skips_malformed_entries_witness :
    mixed_entries ≠ [] ∧
    run_main { thema := some (ThemaValue.arr mixed_entries) } =
      .ok [.skippedNoName, .skippedNonObj, .processed "Good_name" "make a quiz",
           .skippedNoInstruction "x"] ∧
    run_main { thema := some (ThemaValue.arr mixed_entries) } ≠
      .error "No entries found under key thema." := by
  refine ⟨by decide, rfl, ?_⟩
  obtain ⟨outs, h1, _, _⟩ :=
    batch_skips_malformed_entries { thema := some (ThemaValue.arr mixed_entries) }
      mixed_entries rfl (by decide)
  rw [h1]
  simp

lemma mem_sub_runs_go (p : Char → Bool) (r : Char) :
    ∀ (l : List Char) (b : Bool) (c : Char),
      c ∈ sub_runs_go p r b l → c = r ∨ (c ∈ l ∧ p c = false) := by
  intro l
  induction l with
  | nil => intro b c hc; simp [sub_runs_go] at hc
  | cons x xs ih =>
    intro b c hc
    simp only [sub_runs_go] at hc
    by_cases hp : p x = true
    · rw [if_pos hp] at hc
      by_cases hb : b = true
      · rw [if_pos hb] at hc
        rcases ih true c hc with h | ⟨h1, h2⟩
        · exact Or.inl h
        · exact Or.inr ⟨List.mem_cons_of_mem _ h1, h2⟩
      · rw [if_neg hb] at hc
        rcases List.mem_cons.mp hc with rfl | h
        · exact Or.inl rfl
        · rcases ih true c h with h2 | ⟨h3, h4⟩
          · exact Or.inl h2
          · exact Or.inr ⟨List.mem_cons_of_mem _ h3, h4⟩
    · rw [if_neg hp] at hc
      rcases List.mem_cons.mp hc with rfl | h
      · exact Or.inr ⟨List.mem_cons_self _ _, by simpa using hp⟩
      · rcases ih false c h with h2 | ⟨h3, h4⟩
        · exact Or.inl h2
        · exact Or.inr ⟨List.mem_cons_of_mem _ h3, h4⟩

lemma mem_py_strip (p : Char → Bool) (l : List Char) (c : Char)
    (hc : c ∈ py_strip p l) : c ∈ l := by
  unfold py_strip at hc
  rw [List.mem_reverse] at hc
  have h1 : c ∈ (l.dropWhile p).reverse := (List.dropWhile_sublist p).subset hc
  rw [List.mem_reverse] at h1
  exact (List.dropWhile_sublist p).subset h1

lemma sanitize_filename_wf (name : String) :
    sanitize_filename name ≠ "" ∧
    ∀ c ∈ (sanitize_filename name).data, allowed_char c = true := by
  unfold sanitize_filename
  set s0 := py_strip Char.isWhitespace name.data with hs0
  set s1 := sub_runs (fun c => ! allowed_char c) '_' s0 with hs1
  set s2 := sub_runs (fun c => c == '_') '_' s1 with hs2
  set s3 := py_strip (fun c => c == '_') s2 with hs3
  by_cases he : s3.isEmpty = true
  · rw [if_pos he]
    exact ⟨by decide, by decide⟩
  · rw [if_neg he]
    constructor
    · intro hcon
      have hnil : s3 = [] := by
        have h2 := congrArg String.data hcon
        simpa using h2
      rw [hnil] at he
      exact he rfl
    · intro c hc
      have hc3 : c ∈ s3 := hc
      have hc2 : c ∈ s2 := mem_py_strip _ _ _ hc3
      rcases mem_sub_runs_go _ '_' s1 false c hc2 with rfl | ⟨hc1, _⟩
      · decide
      · rcases mem_sub_runs_go _ '_' s0 false c hc1 with rfl | ⟨_, hp⟩
        · decide
        · simpa using hp

lemma occ_before_zero (es : List ThemaEntry) (b : String) : occ_before es 0 b = 0 := by
  simp [occ_before]

lemma occ_before_succ_cons (e : ThemaEntry) (es : List ThemaEntry) (i : Nat) (b : String) :
    occ_before (e :: es) (i + 1) b =
      (if entry_base e = some b then 1 else 0) + occ_before es i b := by
  unfold occ_before
  rw [List.take_succ_cons, List.filter_cons]
  by_cases hc : entry_base e = some b
  · simp [hc]
    omega
  · simp [hc]

lemma process_entry_used (used : String → Nat) (e : ThemaEntry) :
    (process_entry used e).1 = fun k => if entry_base e = some k then used k + 1 else used k := by
  funext k
  cases e with
  | nonObj => simp [process_entry, entry_base]
  | obj name instruction =>
    cases name with
    | none => simp [process_entry, entry_base]
    | some n =>
      cases instruction with
      | none =>
        by_cases hn : (py_strip_ws n).isEmpty = true <;>
          simp [process_entry, entry_base, hn]
      | some i =>
        by_cases hn : (py_strip_ws n).isEmpty = true
        · simp [process_entry, entry_base, hn]
        · by_cases hi : (py_strip_ws i).isEmpty = true
          · simp [process_entry, entry_base, hn, hi]
          · simp only [process_entry, entry_base, hn, hi, if_neg, Bool.false_eq_true,
              not_false_eq_true, or_self]
            by_cases hk : k = sanitize_filename n
            · simp [hn, hi, hk]
            · have hk2 : ¬(sanitize_filename n = k) := fun h => hk h.symm
              simp [hn, hi, hk, hk2]

lemma process_entry_processed (used : String → Nat) (e : ThemaEntry) (b : String)
    (hb : entry_base e = some b) :
    ∃ ins, (process_entry used e).2 = .processed (mk_name b (used b + 1)) ins := by
  cases e with
  | nonObj => simp [entry_base] at hb
  | obj name instruction =>
    cases name with
    | none => simp [entry_base] at hb
    | some n =>
      cases instruction with
      | none => simp [entry_base] at hb
      | some i =>
        simp only [entry_base] at hb
        by_cases hcond : (py_strip_ws n).isEmpty = true ∨ (py_strip_ws i).isEmpty = true
        · rw [if_pos hcond] at hb; simp at hb
        · rw [if_neg hcond] at hb
          have hbb := Option.some.inj hb
          push_neg at hcond
          refine ⟨i, ?_⟩
          unfold process_entry
          dsimp only
          rw [if_neg hcond.1, if_neg hcond.2]
          dsimp only
          rw [hbb]
          unfold mk_name
          rfl

lemma process_entries_names (es : List ThemaEntry) :
    ∀ (used : String → Nat) (i : Nat) (e : ThemaEntry) (b : String),
      es.get? i = some e → entry_base e = some b →
      ∃ ins, (process_entries used es).get? i =
        some (.processed (mk_name b (used b + occ_before es i b + 1)) ins) := by
  induction es with
  | nil => intro used i e b hget _; simp at hget
  | cons e0 rest ih =>
    intro used i e b hget hb
    cases i with
    | zero =>
      have he : e0 = e := by simpa using hget
      subst he
      obtain ⟨ins, hout⟩ := process_entry_processed used e0 b hb
      refine ⟨ins, ?_⟩
      show some (process_entry used e0).2 = _
      rw [hout, occ_before_zero]
    | succ i0 =>
      have hget0 : rest.get? i0 = some e := by simpa using hget
      obtain ⟨ins, hout⟩ := ih (process_entry used e0).1 i0 e b hget0 hb
      refine ⟨ins, ?_⟩
      show (process_entries (process_entry used e0).1 rest).get? i0 = _
      rw [hout]
      have harg : (process_entry used e0).1 b + occ_before rest i0 b =
          used b + occ_before (e0 :: rest) (i0 + 1) b := by
        rw [process_entry_used, occ_before_succ_cons]
        by_cases hc : entry_base e0 = some b
        · simp [hc]
          omega
        · simp [hc]
      rw [harg]

/-- C6 amended: sanitized names are never empty and consist only of
letters, digits, underscore and dash; and the entry at position i whose
label sanitizes to base b is processed under the name produced by mk_name
from b and the number of earlier same-base entries plus one (first
occurrence keeps b, the k-th gets the numeric suffix k). -/
theorem sanitize_filename_and_naming :
    (∀ name : String, sanitize_filename name ≠ "" ∧
      ∀ c ∈ (sanitize_filename name).data, allowed_char c = true) ∧
    (∀ (es : List ThemaEntry) (i : Nat) (e : ThemaEntry) (b : String),
      es.get? i = some e → entry_base e = some b →
      ∃ ins, (process_entries used0 es).get? i =
        some (.processed (mk_name b (occ_before es i b + 1)) ins)) := by
  constructor
  · exact sanitize_filename_wf
  · intro es i e b hget hb
    have h := process_entries_names es used0 i e b hget hb
    simpa [used0] using h

/-- C6 counterexample: the label a-b sanitizes to a-b (the dash, a
non-alphanumeric character, is kept rather than collapsed to an
underscore), and the three distinct entries named x, x and x 2 receive the
file names x, x_2 and x_2, so two distinct processed entries share a name. -/
theorem sanitize_filename_claim_counterexample :
    sanitize_filename "a-b" = "a-b" ∧
    "a-b" ≠ "a_b" ∧
    process_entries used0
      [ThemaEntry.obj (some "x") (some "i1"), ThemaEntry.obj (some "x") (some "i2"),
       ThemaEntry.obj (some "x 2") (some "i3")] =
      [.processed "x" "i1", .processed "x_2" "i2", .processed "x_2" "i3"] ∧
    (ThemaEntry.obj (some "x") (some "i2") : ThemaEntry) ≠
      ThemaEntry.obj (some "x 2") (some "i3") :=
  ⟨rfl, by decide, rfl, by decide⟩

theorem sanitize_filename_and_naming_witness :
    sanitize_filename "a b" ≠ "" ∧
    entry_base (ThemaEntry.obj (some "a?b") (some "y")) = some "a_b" ∧
    (process_entries used0 [ThemaEntry.obj (some "a b") (some "x"),
        ThemaEntry.obj (some "a?b") (some "y")]).get? 1 =
      some (.processed "a_b_2" "y") ∧
    (process_entries used0 [ThemaEntry.obj (some "a b") (some "x"),
        ThemaEntry.obj (some "a?b") (some "y")]).get? 1 ≠ none := by
  refine ⟨(sanitize_filename_and_naming.1 "a b").1, rfl, rfl, ?_⟩
  obtain ⟨ins, hins⟩ := sanitize_filename_and_naming.2
    [ThemaEntry.obj (some "a b") (some "x"), ThemaEntry.obj (some "a?b") (some "y")]
    1 (ThemaEntry.obj (some "a?b") (some "y")) "a_b" rfl rfl
  rw [hins]
  simp
